import Mathlib

/-!
Verification of the vehicle inventory manager (`src/inventory_manager.py`):
the natural-language query parser, the inventory filter, the relevance
scorer, the bounded TTL search cache, vehicle reservation and inventory
loading.  Strings are embedded as `List Char`; the query text is
lower-cased with an ASCII case map (the inputs of interest are ASCII or
already lower-case); money amounts and relevance scores are rationals
(the Python floats only ever hold small integers here, so this is exact).
-/

set_option maxRecDepth 4000

namespace CarBot

/-- ASCII case folding, mirroring `str.lower()` on the ASCII range. -/
def lowerChar (c : Char) : Char :=
  match c with
  | 'A' => 'a' | 'B' => 'b' | 'C' => 'c' | 'D' => 'd' | 'E' => 'e'
  | 'F' => 'f' | 'G' => 'g' | 'H' => 'h' | 'I' => 'i' | 'J' => 'j'
  | 'K' => 'k' | 'L' => 'l' | 'M' => 'm' | 'N' => 'n' | 'O' => 'o'
  | 'P' => 'p' | 'Q' => 'q' | 'R' => 'r' | 'S' => 's' | 'T' => 't'
  | 'U' => 'u' | 'V' => 'v' | 'W' => 'w' | 'X' => 'x' | 'Y' => 'y'
  | 'Z' => 'z' | c => c

/-- ASCII case folding, mirroring `str.upper()` on the ASCII range. -/
def upperChar (c : Char) : Char :=
  match c with
  | 'a' => 'A' | 'b' => 'B' | 'c' => 'C' | 'd' => 'D' | 'e' => 'E'
  | 'f' => 'F' | 'g' => 'G' | 'h' => 'H' | 'i' => 'I' | 'j' => 'J'
  | 'k' => 'K' | 'l' => 'L' | 'm' => 'M' | 'n' => 'N' | 'o' => 'O'
  | 'p' => 'P' | 'q' => 'Q' | 'r' => 'R' | 's' => 'S' | 't' => 'T'
  | 'u' => 'U' | 'v' => 'V' | 'w' => 'W' | 'x' => 'X' | 'y' => 'Y'
  | 'z' => 'Z' | c => c

def lowerL (l : List Char) : List Char := l.map lowerChar

def upperL (l : List Char) : List Char := l.map upperChar

/-- `str.title()` on a single lower-case word: capitalise the first letter. -/
def titleL : List Char → List Char
  | [] => []
  | c :: r => upperChar c :: r

/-- `str.strip()`: drop whitespace from both ends. -/
def stripL (l : List Char) : List Char :=
  ((l.dropWhile Char.isWhitespace).reverse.dropWhile Char.isWhitespace).reverse

/-- Does `pat` match at the very start of `s`? -/
def leadMatch : List Char → List Char → Bool
  | [], _ => true
  | _ :: _, [] => false
  | a :: as, b :: bs => a == b && leadMatch as bs

/-- Python's `pat in s`: contiguous-substring test. -/
def hasSub (pat : List Char) : List Char → Bool
  | [] => leadMatch pat []
  | c :: t => leadMatch pat (c :: t) || hasSub pat t

/-- Numeric value of a digit string (the regex group `(\d+)`). -/
def digitsVal (ds : List Char) : Nat :=
  ds.foldl (fun n c => 10 * n + (c.toNat - 48)) 0

/-- One attempt of `re.search(cue + r'(\d+)', s)` anchored at the head of
`s`: the cue phrase must match literally, immediately followed by at least
one digit; the maximal digit run is the captured group.  `\d` is embedded
as the ASCII digits (the decimal digits appearing in these queries). -/
def tryCue (cue s : List Char) : Option Nat :=
  let ds := (s.drop cue.length).takeWhile Char.isDigit
  if leadMatch cue s && !ds.isEmpty then some (digitsVal ds) else none

/-- `re.search` for the pattern `cue (\d+)`: leftmost match wins. -/
def searchCue (cue : List Char) : List Char → Option Nat
  | [] => tryCue cue []
  | c :: t =>
    match tryCue cue (c :: t) with
    | some v => some v
    | none => searchCue cue t

/-- First successful pattern wins (the `for pattern ... break` loop). -/
def firstSome : List (Option Nat) → Option Nat
  | [] => none
  | o :: rest =>
    match o with
    | some v => some v
    | none => firstSome rest

def cueBajo : List Char := ['b', 'a', 'j', 'o', ' ']
def cueMenos : List Char := ['m', 'e', 'n', 'o', 's', ' ', 'd', 'e', ' ']
def cueHasta : List Char := ['h', 'a', 's', 't', 'a', ' ']
def cueMaximo : List Char := ['m', 'á', 'x', 'i', 'm', 'o', ' ']
def cuePresupuesto : List Char :=
  ['p', 'r', 'e', 's', 'u', 'p', 'u', 'e', 's', 't', 'o', ' ']

/-- The `budget_patterns` list, in its fixed declared order. -/
def budgetCues : List (List Char) :=
  [cueBajo, cueMenos, cueHasta, cueMaximo, cuePresupuesto]

/-- Budget extraction: try each pattern in order, first match wins. -/
def parseBudget (ql : List Char) : Option Nat :=
  firstSome (budgetCues.map (fun cue => searchCue cue ql))

/-- The `vehicle_types` mapping: canonical name and keyword synonyms,
in declaration order. -/
def vehicleTypes : List (List Char × List (List Char)) :=
  [ (['s', 'u', 'v'],
      [['s', 'u', 'v'],
       ['c', 'a', 'm', 'i', 'o', 'n', 'e', 't', 'a'],
       ['t', 'o', 'd', 'o', 't', 'e', 'r', 'r', 'e', 'n', 'o']]),
    (['s', 'e', 'd', 'a', 'n'],
      [['s', 'e', 'd', 'a', 'n'], ['s', 'e', 'd', 'á', 'n']]),
    (['h', 'a', 't', 'c', 'h', 'b', 'a', 'c', 'k'],
      [['h', 'a', 't', 'c', 'h', 'b', 'a', 'c', 'k'],
       ['c', 'o', 'm', 'p', 'a', 'c', 't', 'o']]),
    (['t', 'r', 'u', 'c', 'k'],
      [['t', 'r', 'u', 'c', 'k'], ['p', 'i', 'c', 'k', 'u', 'p'],
       ['c', 'a', 'm', 'i', 'ó', 'n']]),
    (['c', 'o', 'n', 'v', 'e', 'r', 't', 'i', 'b', 'l', 'e'],
      [['c', 'o', 'n', 'v', 'e', 'r', 't', 'i', 'b', 'l', 'e'],
       ['d', 'e', 's', 'c', 'a', 'p', 'o', 't', 'a', 'b', 'l', 'e']]),
    (['c', 'o', 'u', 'p', 'e'],
      [['c', 'o', 'u', 'p', 'e'], ['c', 'o', 'u', 'p', 'é'],
       ['d', 'e', 'p', 'o', 'r', 't', 'i', 'v', 'o']]) ]

/-- The `colors` mapping, in declaration order. -/
def colorTable : List (List Char × List (List Char)) :=
  [ (['r', 'o', 'j', 'o'], [['r', 'o', 'j', 'o'], ['r', 'e', 'd']]),
    (['a', 'z', 'u', 'l'], [['a', 'z', 'u', 'l'], ['b', 'l', 'u', 'e']]),
    (['n', 'e', 'g', 'r', 'o'],
      [['n', 'e', 'g', 'r', 'o'], ['b', 'l', 'a', 'c', 'k']]),
    (['b', 'l', 'a', 'n', 'c', 'o'],
      [['b', 'l', 'a', 'n', 'c', 'o'], ['w', 'h', 'i', 't', 'e']]),
    (['g', 'r', 'i', 's'],
      [['g', 'r', 'i', 's'], ['g', 'r', 'a', 'y'], ['g', 'r', 'e', 'y']]),
    (['p', 'l', 'a', 't', 'a'],
      [['p', 'l', 'a', 't', 'a'], ['s', 'i', 'l', 'v', 'e', 'r']]) ]

/-- First table entry any of whose keywords occurs in the query wins. -/
def findKeyed (tbl : List (List Char × List (List Char))) (ql : List Char) :
    Option (List Char) :=
  tbl.findSome? (fun p => if p.2.any (fun kw => hasSub kw ql) then some p.1 else none)

def famWords : List (List Char) :=
  [['f', 'a', 'm', 'i', 'l', 'i', 'a'],
   ['f', 'a', 'm', 'i', 'l', 'i', 'a', 'r'],
   ['s', 'e', 'g', 'u', 'r', 'o']]

def ecoWords : List (List Char) :=
  [['e', 'c', 'o', 'n', 'ó', 'm', 'i', 'c', 'o'],
   ['b', 'a', 'r', 'a', 't', 'o'],
   ['h', 'í', 'b', 'r', 'i', 'd', 'o']]

def luxWords : List (List Char) :=
  [['l', 'u', 'j', 'o'],
   ['p', 'r', 'e', 'm', 'i', 'u', 'm'],
   ['l', 'u', 'x', 'u', 'r', 'y']]

/-- The criteria dict produced by `_parse_search_query`.  The three boolean
flags are only ever set to `True` in the source, so dict-presence is a
`Bool` here. -/
structure Criteria where
  budget_max : Option Nat
  body_style : Option (List Char)
  color : Option (List Char)
  family_friendly : Bool
  economical : Bool
  luxury : Bool
deriving DecidableEq, Repr

/-- `InventoryManager._parse_search_query`. -/
def parseSearchQuery (query : List Char) : Criteria :=
  let ql := lowerL query
  { budget_max := parseBudget ql
    body_style := (findKeyed vehicleTypes ql).map upperL
    color := (findKeyed colorTable ql).map titleL
    family_friendly := famWords.any (fun w => hasSub w ql)
    economical := ecoWords.any (fun w => hasSub w ql)
    luxury := luxWords.any (fun w => hasSub w ql) }

/-- One inventory row / `Vehicle` dataclass.  Prices are rationals (exact
for the float arithmetic actually performed); the optional text fields
`safety_rating` and `features` are embedded as the string the scorer sees
after its `str(...)` coercion. -/
structure Vehicle where
  vin : List Char
  make : List Char
  model : List Char
  year : Nat
  price : ℚ
  mileage : Nat
  color : List Char
  body_style : List Char
  fuel_type : List Char
  transmission : List Char
  status : List Char
  safety_rating : List Char
  features : List Char
deriving DecidableEq, Repr

def availS : List Char := ['A', 'v', 'a', 'i', 'l', 'a', 'b', 'l', 'e']
def reservedS : List Char := ['R', 'e', 's', 'e', 'r', 'v', 'e', 'd']
def suvS : List Char := ['S', 'U', 'V']
def sedanS : List Char := ['S', 'E', 'D', 'A', 'N']
def safetyS : List Char := ['s', 'a', 'f', 'e', 't', 'y']
def hybridS : List Char := ['h', 'y', 'b', 'r', 'i', 'd']

/-- `InventoryManager._apply_filters`: budget, body style and color filters
when the criterion is present, then the unconditional Available filter. -/
def applyFilters (df : List Vehicle) (c : Criteria) : List Vehicle :=
  let d1 : List Vehicle := match c.budget_max with
    | some b => df.filter (fun v => decide (v.price ≤ (b : ℚ)))
    | none => df
  let d2 : List Vehicle := match c.body_style with
    | some bs => d1.filter (fun v => upperL v.body_style == bs)
    | none => d1
  let d3 : List Vehicle := match c.color with
    | some col => d2.filter (fun v => hasSub (lowerL col) (lowerL v.color))
    | none => d2
  d3.filter (fun v => v.status == availS)

/-- `InventoryManager._calculate_relevance`.  The sequential `score +=`
accumulations are written as one sum of the seven independent terms;
`current_year` (`datetime.now().year`) is an explicit parameter. -/
def calculateRelevance (v : Vehicle) (c : Criteria) (currentYear : Nat) : ℚ :=
  (if v.status == availS then (10 : ℚ) else 0)
  + (if c.family_friendly && (upperL v.body_style == suvS || upperL v.body_style == sedanS)
      then (5 : ℚ) else 0)
  + (if c.family_friendly && hasSub safetyS (lowerL v.features) then (3 : ℚ) else 0)
  + (if c.economical && decide (v.price < 30000) then (3 : ℚ) else 0)
  + (if c.economical && hasSub hybridS (lowerL v.fuel_type) then (4 : ℚ) else 0)
  - (if 100000 < v.mileage then (2 : ℚ) else 0)
  + (if currentYear - 2 ≤ v.year then (2 : ℚ) else 0)

/-- Insert into a list already sorted by descending `f`, before the first
element of no greater score; the inserted row is the earliest remaining
one, so it wins ties. -/
def insertDesc (f : Vehicle → ℚ) (x : Vehicle) : List Vehicle → List Vehicle
  | [] => [x]
  | y :: ys => if f y ≤ f x then x :: y :: ys else y :: insertDesc f x ys

/-- Stable descending sort by score: `nlargest` orders rows by descending
score, ties broken by original row order (`keep='first'`). -/
def sortDesc (f : Vehicle → ℚ) : List Vehicle → List Vehicle
  | [] => []
  | x :: xs => insertDesc f x (sortDesc f xs)

/-- The cache-miss pipeline of `intelligent_search`: parse the query,
apply the filters, and if anything survives score, rank and truncate. -/
def searchCompute (inv : List Vehicle) (q : List Char) (k year : Nat) :
    List Vehicle :=
  let crit := parseSearchQuery q
  let fl := applyFilters inv crit
  if fl.isEmpty then []
  else (sortDesc (fun v => calculateRelevance v crit year) fl).take k

/-- A `_search_cache` value: ranked result list plus creation timestamp. -/
structure CacheEntry where
  result : List Vehicle
  timestamp : Nat
deriving DecidableEq, Repr

/-- The md5 fingerprint of `_generate_cache_key` is embedded as the data it
deterministically hashes: `(query.lower().strip(), max_results, len(df))`
(the hash is assumed collision-free). -/
abbrev CacheKey := List Char × Nat × Nat

/-- The `_search_cache` dict, as an insertion-ordered association list
with pairwise-distinct keys in any reachable state. -/
abbrev Cache := List (CacheKey × CacheEntry)

def generateCacheKey (q : List Char) (k : Nat) (invLen : Nat) : CacheKey :=
  (stripL (lowerL q), k, invLen)

/-- Dict lookup: the entry of the (first) occurrence of `k`. -/
def lookupKey : Cache → CacheKey → Option CacheEntry
  | [], _ => none
  | (k', e) :: rest, k => if k' = k then some e else lookupKey rest k

/-- `dict.pop(k, None)` / `del`: remove the (first) occurrence of `k`. -/
def eraseKey : Cache → CacheKey → Cache
  | [], _ => []
  | (k', e) :: rest, k => if k' = k then rest else (k', e) :: eraseKey rest k

/-- `cache[k] = e`: update in place if present, else append. -/
def setKey : Cache → CacheKey → CacheEntry → Cache
  | [], k, e => [(k, e)]
  | (k', e') :: rest, k, e =>
    if k' = k then (k, e) :: rest else (k', e') :: setKey rest k e

/-- `min(cache, key=timestamp)` starting from best-so-far `b`: Python's
`min` keeps the earlier key on ties, so only strict improvement replaces. -/
def minKT (b : CacheKey × Nat) : Cache → CacheKey × Nat
  | [] => b
  | (k, e) :: rest =>
    if e.timestamp < b.2 then minKT (k, e.timestamp) rest else minKT b rest

/-- The key with the smallest (oldest) timestamp, first on ties. -/
def minKeyByTs : Cache → Option CacheKey
  | [] => none
  | (k, e) :: rest => some (minKT (k, e.timestamp) rest).1

def cacheTTL : Nat := 300

def cacheCapacity : Nat := 50

/-- `InventoryManager._cache_result`: evict the oldest entry when at
capacity, then store the new entry with the current timestamp. -/
def cacheResult (c : Cache) (key : CacheKey) (res : List Vehicle) (now : Nat) :
    Cache :=
  let c1 := if cacheCapacity ≤ c.length then
      match minKeyByTs c with
      | some m => eraseKey c m
      | none => c
    else c
  setKey c1 key ⟨res, now⟩

/-- `InventoryManager._get_cached_result`: a fresh-enough entry is a hit
and leaves the cache untouched; otherwise the stale/absent key is popped.
Returns the optional hit and the possibly-updated cache. -/
def getCachedResult (c : Cache) (key : CacheKey) (now : Nat) :
    Option (List Vehicle) × Cache :=
  match lookupKey c key with
  | some e => if now - e.timestamp ≤ cacheTTL then (some e.result, c)
              else (none, eraseKey c key)
  | none => (none, eraseKey c key)

/-- The backing CSV file: missing, unreadable/malformed, or a table.
(The `status`-column defaulting of `load_inventory` is elided: rows are
embedded as complete records.) -/
inductive DiskFile where
  | missing
  | corrupt
  | table (rows : List Vehicle)
deriving DecidableEq, Repr

/-- The mutable state of an `InventoryManager`: the backing store, the
in-memory catalog, the search cache and the hit/miss counters. -/
structure MgrState where
  disk : DiskFile
  inventory : List Vehicle
  searchCache : Cache
  hits : Nat
  misses : Nat
deriving DecidableEq, Repr

/-- `InventoryManager.load_inventory`: missing file or a parse error yields
`False` and leaves the catalog untouched; otherwise the table replaces the
in-memory catalog. -/
def loadInventory (st : MgrState) : Bool × MgrState :=
  match st.disk with
  | DiskFile.table rows => (true, { st with inventory := rows })
  | _ => (false, st)

/-- `InventoryManager.intelligent_search`: empty catalog short-circuits to
`[]`; otherwise consult the cache (hit bumps the hit counter and returns
the cached list unchanged), and on a miss run the pipeline, bump the miss
counter and store the result.  `now` models `time.time()`, `year` the
current calendar year. -/
def intelligentSearch (st : MgrState) (q : List Char) (k now year : Nat) :
    List Vehicle × MgrState :=
  if st.inventory = [] then ([], st)
  else
    let key := generateCacheKey q k st.inventory.length
    match getCachedResult st.searchCache key now with
    | (some res, _) => (res, { st with hits := st.hits + 1 })
    | (none, c1) =>
      let res := searchCompute st.inventory q k year
      (res, { st with searchCache := cacheResult c1 key res now,
                      misses := st.misses + 1 })

/-- The row scan of `reserve_vehicle`:
`df[df['vin'] == vin].index` plus the status check and update on the first
matching row.  `none` means no row carries the vin; `some (ok, rows)`
returns whether the first matching row was Available together with the
(possibly updated) table. -/
def reserveScan (vin : List Char) : List Vehicle → Option (Bool × List Vehicle)
  | [] => none
  | v :: rest =>
    if v.vin = vin then
      if v.status = availS then some (true, { v with status := reservedS } :: rest)
      else some (false, v :: rest)
    else (reserveScan vin rest).map (fun p => (p.1, v :: p.2))

/-- `InventoryManager.reserve_vehicle`.  `writeOk` models whether the
synchronous `to_csv` write-back succeeds; when it raises, the surrounding
`except` returns `False`, but the in-memory status update has already
happened. -/
def reserveVehicle (st : MgrState) (vin : List Char) (writeOk : Bool) :
    Bool × MgrState :=
  match reserveScan vin st.inventory with
  | none => (false, st)
  | some (false, _) => (false, st)
  | some (true, inv') =>
    if writeOk then (true, { st with inventory := inv', disk := DiskFile.table inv' })
    else (false, { st with inventory := inv' })

/-- First catalog row carrying the vin (`df[df['vin'] == vin]`, row 0). -/
def findVin (vin : List Char) (inv : List Vehicle) : Option Vehicle :=
  inv.find? (fun v => decide (v.vin = vin))

/-- A sample catalog row used to instantiate universally quantified
results on concrete inputs. -/
def vSample : Vehicle :=
  { vin := ['V', '1'], make := ['K', 'i', 'a'], model := ['R', 'i', 'o']
    year := 2024, price := 28000, mileage := 50000
    color := ['R', 'o', 'j', 'o'], body_style := ['S', 'U', 'V']
    fuel_type := ['G', 'a', 's'], transmission := ['A', 'u', 't', 'o']
    status := availS, safety_rating := ['5']
    features := ['n', 'o', 'n', 'e'] }

def qSuv : List Char := ['s', 'u', 'v']

/-- An empty manager state whose backing file is missing. -/
def stEmpty : MgrState :=
  { disk := DiskFile.missing, inventory := [], searchCache := []
    hits := 0, misses := 0 }

/-- A one-row manager state holding the sample vehicle. -/
def stOne : MgrState :=
  { disk := DiskFile.table [vSample], inventory := [vSample], searchCache := []
    hits := 0, misses := 0 }

def vin1 : List Char := ['V', '1']

def lujoQuery : List Char :=
  ['a', 'u', 't', 'o', ' ', 'd', 'e', ' ', 'l', 'u', 'j', 'o']

/-- Scenario A query: "SUV para familia hasta 30000". -/
def qC1 : List Char :=
  ['S', 'U', 'V', ' ', 'p', 'a', 'r', 'a', ' ', 'f', 'a', 'm', 'i', 'l', 'i',
   'a', ' ', 'h', 'a', 's', 't', 'a', ' ', '3', '0', '0', '0', '0']

/-- The criteria record Scenario A expects the parser to produce. -/
def critC1 : Criteria :=
  { budget_max := some 30000, body_style := some suvS, color := none
    family_friendly := true, economical := false, luxury := false }

/-- Is there a position within the first `min` length where `cue` and `b`
hold different characters?  If so, `cue` cannot match at the head of
`b ++ s` for any continuation `s`. -/
def clashes : List Char → List Char → Bool
  | [], _ => false
  | _, [] => false
  | c :: cs, d :: ds => decide (c ≠ d) || clashes cs ds

/-- `cue` clashes with every suffix of `b`: no head match of `cue` can
start anywhere inside `b`, whatever follows `b`. -/
def allClash (cue : List Char) : List Char → Bool
  | [] => true
  | x :: b => clashes cue (x :: b) && allClash cue b

/-- The first character, if any, is not a decimal digit. -/
def headNonDigit : List Char → Prop
  | [] => True
  | c :: _ => c.isDigit = false

def p1tailC3 : List Char :=
  ['a', 's', 't', 'a', ' ', '4', '0', '0', '0', '0']

/-- The Scenario E phrase "hasta 40000". -/
def p1C3 : List Char := 'h' :: p1tailC3

def p2tailC3 : List Char :=
  ['á', 'x', 'i', 'm', 'o', ' ', '5', '0', '0', '0', '0']

/-- The Scenario E phrase "máximo 50000". -/
def p2C3 : List Char := 'm' :: p2tailC3

/-- A query containing both Scenario E phrases plus an earlier-priority
budget cue: "bajo 7 hasta 40000 máximo 50000". -/
def qCE : List Char :=
  ['b', 'a', 'j', 'o', ' ', '7', ' '] ++ p1C3 ++ (' ' :: p2C3)

def wA : List Char := ['q', 'u', 'i', 'e', 'r', 'o', ' ']
def wB : List Char := [' ', 'o', ' ']
def wC : List Char := [' ', 'y', 'a']

/-- Fifty distinct cache fingerprints, oldest first. -/
def cache50 : Cache :=
  (List.range 50).map (fun i => ((['q'], i, 0), ⟨[], i⟩))

def keyW : CacheKey := (['w'], 8, 1)

/-- The state after a cache miss of `intelligent_search`: stale entry for
the fingerprint popped, pipeline result stored, miss counter bumped. -/
def missState (st : MgrState) (q : List Char) (k t y : Nat) : MgrState :=
  { st with
      searchCache := cacheResult
        (getCachedResult st.searchCache
          (generateCacheKey q k st.inventory.length) t).2
        (generateCacheKey q k st.inventory.length)
        (searchCompute st.inventory q k y) t,
      misses := st.misses + 1 }

/-! ### Helper lemmas -/

theorem mem_insertDesc (f : Vehicle → ℚ) (x : Vehicle) (l : List Vehicle)
    (v : Vehicle) : v ∈ insertDesc f x l ↔ v = x ∨ v ∈ l := by
  induction l with
  | nil => simp [insertDesc]
  | cons y ys ih =>
    simp only [insertDesc]
    split
    · simp
    · simp [ih]; tauto

theorem mem_sortDesc (f : Vehicle → ℚ) (l : List Vehicle) (v : Vehicle) :
    v ∈ sortDesc f l ↔ v ∈ l := by
  induction l with
  | nil => simp [sortDesc]
  | cons y ys ih => simp [sortDesc, mem_insertDesc, ih]

theorem status_of_mem_applyFilters (cat : List Vehicle) (c : Criteria)
    (v : Vehicle) (hv : v ∈ applyFilters cat c) : v.status = availS := by
  simp only [applyFilters] at hv
  rw [List.mem_filter] at hv
  exact eq_of_beq hv.2

theorem mem_applyFilters_of_mem_searchCompute (cat : List Vehicle)
    (q : List Char) (k y : Nat) (v : Vehicle)
    (hv : v ∈ searchCompute cat q k y) :
    v ∈ applyFilters cat (parseSearchQuery q) := by
  simp only [searchCompute] at hv
  split at hv
  · simp at hv
  · exact (mem_sortDesc _ _ _).mp (List.take_subset _ _ hv)

theorem ite_flag_mono (b b' : Bool) (h : b = true → b' = true) (q : ℚ)
    (hq : 0 ≤ q) : (if b then q else 0) ≤ (if b' then q else 0) := by
  cases b with
  | false => cases b' <;> simp [hq]
  | true => rw [h rfl]

/-! ### Claims -/

/-- C2: every vehicle record surviving `_apply_filters` (and hence every
vehicle returned by the search pipeline) has status Available; the
Available-only filter is applied unconditionally, for every criteria
record including the empty one. -/
theorem claim_filter_only_available (cat : List Vehicle) (c : Criteria)
    (q : List Char) (k y : Nat) (v : Vehicle) :
    (v ∈ applyFilters cat c → v.status = availS) ∧
    (v ∈ searchCompute cat q k y → v.status = availS) := by
  refine ⟨status_of_mem_applyFilters cat c v, fun hv => ?_⟩
  exact status_of_mem_applyFilters _ _ v
    (mem_applyFilters_of_mem_searchCompute cat q k y v hv)

/-- Witness for C2 at a concrete catalog, criteria and query. -/
theorem claim_filter_only_available_witness :
    vSample.status = availS := by
  refine (claim_filter_only_available [vSample]
    ⟨none, none, none, false, false, false⟩ qSuv 8 2024 vSample).1 ?_
  decide

/-- C7: when the backing table is missing or unparsable, `load_inventory`
returns `False` and leaves the in-memory catalog exactly as it was, and
any subsequent search on an empty store returns `[]` (and leaves the
state untouched) rather than raising. -/
theorem claim_load_failure_safe (st : MgrState)
    (h : st.disk = DiskFile.missing ∨ st.disk = DiskFile.corrupt)
    (q : List Char) (k t y : Nat) :
    loadInventory st = (false, st) ∧
    (st.inventory = [] → intelligentSearch st q k t y = ([], st)) := by
  constructor
  · unfold loadInventory
    rcases h with h | h <;> rw [h]
  · intro he
    unfold intelligentSearch
    rw [if_pos he]

/-- Witness for C7 on the empty manager state with a missing file. -/
theorem claim_load_failure_safe_witness :
    loadInventory stEmpty = (false, stEmpty) ∧
    (stEmpty.inventory = [] →
      intelligentSearch stEmpty qSuv 8 0 2026 = ([], stEmpty)) :=
  claim_load_failure_safe stEmpty (Or.inl rfl) qSuv 8 0 2026

/-- C8: the relevance score is monotonically non-decreasing in the three
criteria flags: for a fixed vehicle and fixed non-flag criteria fields,
turning on any subset of `family_friendly`, `economical`, `luxury` never
decreases the score. -/
theorem claim_score_flag_monotone (v : Vehicle) (y : Nat) (c c' : Criteria)
    (hb : c'.budget_max = c.budget_max) (hbs : c'.body_style = c.body_style)
    (hc : c'.color = c.color)
    (hfam : c.family_friendly = true → c'.family_friendly = true)
    (heco : c.economical = true → c'.economical = true)
    (hlux : c.luxury = true → c'.luxury = true) :
    calculateRelevance v c y ≤ calculateRelevance v c' y := by
  unfold calculateRelevance
  refine add_le_add (sub_le_sub_right
    (add_le_add (add_le_add (add_le_add (add_le_add (le_refl _)
      ?_) ?_) ?_) ?_) _) (le_refl _)
  · refine ite_flag_mono _ _ (fun h => ?_) _ (by norm_num)
    simp only [Bool.and_eq_true] at h ⊢
    exact ⟨hfam h.1, h.2⟩
  · refine ite_flag_mono _ _ (fun h => ?_) _ (by norm_num)
    simp only [Bool.and_eq_true] at h ⊢
    exact ⟨hfam h.1, h.2⟩
  · refine ite_flag_mono _ _ (fun h => ?_) _ (by norm_num)
    simp only [Bool.and_eq_true] at h ⊢
    exact ⟨heco h.1, h.2⟩
  · refine ite_flag_mono _ _ (fun h => ?_) _ (by norm_num)
    simp only [Bool.and_eq_true] at h ⊢
    exact ⟨heco h.1, h.2⟩

/-- Witness for C8: turning on all three flags for the sample vehicle. -/
theorem claim_score_flag_monotone_witness :
    calculateRelevance vSample ⟨some 30000, some suvS, none, false, false, false⟩ 2024 ≤
    calculateRelevance vSample ⟨some 30000, some suvS, none, true, true, true⟩ 2024 :=
  claim_score_flag_monotone vSample 2024
    ⟨some 30000, some suvS, none, false, false, false⟩
    ⟨some 30000, some suvS, none, true, true, true⟩
    rfl rfl rfl (by decide) (by decide) (by decide)

/-- C9: the `luxury` flag never influences search results: two criteria
records differing only in the luxury flag produce the same filter output
and the same relevance score for every vehicle, even though the parser
does set the flag (e.g. on the query "auto de lujo"). -/
theorem claim_luxury_noninterference (cat : List Vehicle) (c : Criteria)
    (b : Bool) (v : Vehicle) (y : Nat) :
    applyFilters cat { c with luxury := b } = applyFilters cat c ∧
    calculateRelevance v { c with luxury := b } y = calculateRelevance v c y ∧
    (parseSearchQuery lujoQuery).luxury = true := by
  obtain ⟨bm, bs, co, ff, ec, lx⟩ := c
  exact ⟨rfl, rfl, by decide⟩

theorem reserveScan_none (vin : List Char) (inv : List Vehicle)
    (h : ∀ v ∈ inv, v.vin ≠ vin) : reserveScan vin inv = none := by
  induction inv with
  | nil => rfl
  | cons v rest ih =>
    have hv : v.vin ≠ vin := h v (List.mem_cons_self v rest)
    simp only [reserveScan, if_neg hv]
    rw [ih (fun u hu => h u (List.mem_cons_of_mem v hu))]
    rfl

theorem vin_of_findVin (vin : List Char) (inv : List Vehicle) (v : Vehicle)
    (hfind : findVin vin inv = some v) : v.vin = vin := by
  have := List.find?_some hfind
  exact of_decide_eq_true this

theorem reserveScan_unavail (vin : List Char) (inv : List Vehicle) (v : Vehicle)
    (hfind : findVin vin inv = some v) (hst : v.status ≠ availS) :
    reserveScan vin inv = some (false, inv) := by
  induction inv with
  | nil => simp [findVin] at hfind
  | cons u rest ih =>
    by_cases hu : u.vin = vin
    · have : u = v := by
        simp [findVin, List.find?_cons, hu] at hfind
        exact hfind
      subst this
      simp [reserveScan, if_pos hu, if_neg hst]
    · have hfind' : findVin vin rest = some v := by
        simpa [findVin, List.find?_cons, hu] using hfind
      simp [reserveScan, if_neg hu, ih hfind']

theorem reserveScan_avail (vin : List Char) (inv : List Vehicle) (v : Vehicle)
    (hfind : findVin vin inv = some v) (hst : v.status = availS) :
    ∃ pre post, inv = pre ++ v :: post ∧ (∀ u ∈ pre, u.vin ≠ vin) ∧
      reserveScan vin inv =
        some (true, pre ++ { v with status := reservedS } :: post) := by
  induction inv with
  | nil => simp [findVin] at hfind
  | cons u rest ih =>
    by_cases hu : u.vin = vin
    · have : u = v := by
        simp [findVin, List.find?_cons, hu] at hfind
        exact hfind
      subst this
      exact ⟨[], rest, rfl, by simp, by simp [reserveScan, if_pos hu, if_pos hst]⟩
    · have hfind' : findVin vin rest = some v := by
        simpa [findVin, List.find?_cons, hu] using hfind
      obtain ⟨pre, post, heq, hpre, hscan⟩ := ih hfind'
      refine ⟨u :: pre, post, by rw [heq]; rfl, ?_, ?_⟩
      · intro w hw
        rcases List.mem_cons.mp hw with hw | hw
        · rw [hw]; exact hu
        · exact hpre w hw
      · simp [reserveScan, if_neg hu, hscan]

theorem findVin_append (vin : List Char) (pre post : List Vehicle) (v : Vehicle)
    (hpre : ∀ u ∈ pre, u.vin ≠ vin) (hv : v.vin = vin) :
    findVin vin (pre ++ v :: post) = some v := by
  induction pre with
  | nil => simp [findVin, List.find?_cons, hv]
  | cons u pre' ih =>
    have hu : u.vin ≠ vin := hpre u (List.mem_cons_self u pre')
    have hstep : findVin vin ((u :: pre') ++ v :: post) =
        findVin vin (pre' ++ v :: post) := by
      simp [findVin, List.find?_cons, hu]
    rw [hstep]
    exact ih (fun w hw => hpre w (List.mem_cons_of_mem u hw))

theorem reserveVehicle_not_found (st : MgrState) (vin : List Char) (w : Bool)
    (h : ∀ v ∈ st.inventory, v.vin ≠ vin) :
    reserveVehicle st vin w = (false, st) := by
  unfold reserveVehicle
  rw [reserveScan_none vin _ h]

theorem reserveVehicle_unavail (st : MgrState) (vin : List Char) (w : Bool)
    (v : Vehicle) (hf : findVin vin st.inventory = some v)
    (hst : v.status ≠ availS) : reserveVehicle st vin w = (false, st) := by
  unfold reserveVehicle
  rw [reserveScan_unavail vin _ v hf hst]

/-- C5: `reserve_vehicle` returns `False` and leaves the state unchanged
when the vin is unknown or the first matching row is not Available; when
the row is Available it flips the in-memory status to Reserved, persists
the whole table to the backing store, returns `True`, and an immediately
repeated reserve of the same vin returns `False` without further change. -/
theorem claim_reserve_semantics (st : MgrState) (vin : List Char) (w : Bool) :
    ((∀ v ∈ st.inventory, v.vin ≠ vin) → reserveVehicle st vin w = (false, st)) ∧
    (∀ v, findVin vin st.inventory = some v → v.status ≠ availS →
      reserveVehicle st vin w = (false, st)) ∧
    (∀ v, findVin vin st.inventory = some v → v.status = availS →
      ∃ inv', reserveVehicle st vin true =
          (true, { st with inventory := inv', disk := DiskFile.table inv' }) ∧
        findVin vin inv' = some { v with status := reservedS } ∧
        reserveVehicle { st with inventory := inv', disk := DiskFile.table inv' }
            vin w =
          (false, { st with inventory := inv', disk := DiskFile.table inv' })) := by
  refine ⟨reserveVehicle_not_found st vin w, reserveVehicle_unavail st vin w,
    fun v hf hs => ?_⟩
  obtain ⟨pre, post, heq, hpre, hscan⟩ := reserveScan_avail vin _ v hf hs
  have hvin : v.vin = vin := vin_of_findVin vin _ v hf
  have hfind' : findVin vin (pre ++ { v with status := reservedS } :: post) =
      some { v with status := reservedS } :=
    findVin_append vin pre post _ hpre hvin
  have hne : ({ v with status := reservedS } : Vehicle).status ≠ availS := by
    show reservedS ≠ availS
    decide
  refine ⟨pre ++ { v with status := reservedS } :: post, ?_, hfind', ?_⟩
  · unfold reserveVehicle
    rw [hscan]
    rfl
  · exact reserveVehicle_unavail _ vin w _ hfind' hne

/-- Witness for C5: the successful-reservation branch on a one-row catalog. -/
theorem claim_reserve_semantics_witness :
    ∃ inv', reserveVehicle stOne vin1 true =
        (true, { stOne with inventory := inv', disk := DiskFile.table inv' }) ∧
      findVin vin1 inv' = some { vSample with status := reservedS } ∧
      reserveVehicle { stOne with inventory := inv', disk := DiskFile.table inv' }
          vin1 true =
        (false, { stOne with inventory := inv', disk := DiskFile.table inv' }) :=
  (claim_reserve_semantics stOne vin1 true).2.2 vSample (by decide) (by decide)

/-- C10: when the synchronous write-back inside `reserve_vehicle` fails on
an Available vehicle, the call returns `False`, yet the in-memory catalog
has already been mutated to Reserved (the failure path is not
state-atomic); the backing store is left as it was. -/
theorem claim_reserve_write_failure_nonatomic (st : MgrState) (vin : List Char)
    (v : Vehicle) (hf : findVin vin st.inventory = some v)
    (hs : v.status = availS) :
    ∃ inv', reserveVehicle st vin false = (false, { st with inventory := inv' }) ∧
      findVin vin inv' = some { v with status := reservedS } ∧
      inv' ≠ st.inventory ∧
      ({ st with inventory := inv' } : MgrState).disk = st.disk := by
  obtain ⟨pre, post, heq, hpre, hscan⟩ := reserveScan_avail vin _ v hf hs
  have hvin : v.vin = vin := vin_of_findVin vin _ v hf
  refine ⟨pre ++ { v with status := reservedS } :: post, ?_, ?_, ?_, rfl⟩
  · unfold reserveVehicle
    rw [hscan]
    rfl
  · exact findVin_append vin pre post _ hpre hvin
  · rw [heq]
    intro hcontra
    have h2 := List.append_cancel_left hcontra
    injection h2 with h1 _
    have h3 := congrArg Vehicle.status h1
    rw [hs] at h3
    have : reservedS = availS := h3
    exact absurd this (by decide)

/-- C1: on a one-vehicle catalog holding an Available SUV priced 28000
with model year equal to the current year, mileage at most 100000 and no
"safety" in its features, the query "SUV para familia hasta 30000"
extracts criteria (budget 30000, body style SUV, family-friendly), the
filter keeps the vehicle, its relevance score is exactly 17.0
(10 Available + 5 family-with-SUV + 2 recent year), and it is returned as
the sole result. -/
theorem claim_scenario_suv_search (y k : Nat) (v : Vehicle) (hk : 1 ≤ k)
    (hst : v.status = availS) (hbody : upperL v.body_style = suvS)
    (hprice : v.price = 28000) (hyear : v.year = y)
    (hmil : v.mileage ≤ 100000)
    (hsafe : hasSub safetyS (lowerL v.features) = false) :
    parseSearchQuery qC1 = critC1 ∧
    applyFilters [v] critC1 = [v] ∧
    calculateRelevance v critC1 y = 17 ∧
    searchCompute [v] qC1 k y = [v] := by
  have hparse : parseSearchQuery qC1 = critC1 := by decide
  have hfilter : applyFilters [v] critC1 = [v] := by
    simp only [applyFilters, critC1]
    norm_num [List.filter, hprice, hbody, hst]
  have hmil' : ¬(100000 < v.mileage) := by omega
  have hscore : calculateRelevance v critC1 y = 17 := by
    simp only [calculateRelevance, critC1, hst, hbody, hsafe, hyear, hmil']
    norm_num
  have hsearch : searchCompute [v] qC1 k y = [v] := by
    simp only [searchCompute, hparse, hfilter]
    simp only [List.isEmpty_cons, sortDesc, insertDesc]
    cases k with
    | zero => omega
    | succ k0 => simp [List.take]
  exact ⟨hparse, hfilter, hscore, hsearch⟩

/-- Witness for C1 at the sample vehicle with current year 2024. -/
theorem claim_scenario_suv_search_witness :
    parseSearchQuery qC1 = critC1 ∧
    applyFilters [vSample] critC1 = [vSample] ∧
    calculateRelevance vSample critC1 2024 = 17 ∧
    searchCompute [vSample] qC1 8 2024 = [vSample] :=
  claim_scenario_suv_search 2024 8 vSample (by decide) (by decide) (by decide)
    (by decide) (by decide) (by decide) (by decide)

theorem minKT_le_start (rest : Cache) (b : CacheKey × Nat) :
    (minKT b rest).2 ≤ b.2 := by
  induction rest generalizing b with
  | nil => exact le_refl _
  | cons p r ih =>
    obtain ⟨k, e⟩ := p
    simp only [minKT]
    split
    · exact le_of_lt (lt_of_le_of_lt (ih (k, e.timestamp)) (by assumption))
    · exact ih b

theorem minKT_le_all (rest : Cache) (b : CacheKey × Nat) :
    ∀ p ∈ rest, (minKT b rest).2 ≤ p.2.timestamp := by
  induction rest generalizing b with
  | nil => intro p hp; simp at hp
  | cons q r ih =>
    obtain ⟨k, e⟩ := q
    intro p hp
    rcases List.mem_cons.mp hp with hp | hp
    · subst hp
      simp only [minKT]
      split
      · exact minKT_le_start r (k, e.timestamp)
      · exact le_trans (minKT_le_start r b) (not_lt.mp (by assumption))
    · simp only [minKT]
      split
      · exact ih (k, e.timestamp) p hp
      · exact ih b p hp

theorem minKT_mem (rest : Cache) (b : CacheKey × Nat) :
    minKT b rest = b ∨
    ∃ e, ((minKT b rest).1, e) ∈ rest ∧ e.timestamp = (minKT b rest).2 := by
  induction rest generalizing b with
  | nil => exact Or.inl rfl
  | cons q r ih =>
    obtain ⟨k, e⟩ := q
    simp only [minKT]
    split
    · rcases ih (k, e.timestamp) with h | ⟨e', hmem, hts⟩
      · refine Or.inr ⟨e, ?_, ?_⟩
        · rw [h]; exact List.mem_cons_self _ _
        · rw [h]
      · exact Or.inr ⟨e', List.mem_cons_of_mem _ hmem, hts⟩
    · rcases ih b with h | ⟨e', hmem, hts⟩
      · exact Or.inl h
      · exact Or.inr ⟨e', List.mem_cons_of_mem _ hmem, hts⟩

theorem minKeyByTs_spec (c : Cache) (hne : c ≠ []) :
    ∃ m em, minKeyByTs c = some m ∧ (m, em) ∈ c ∧
      ∀ p ∈ c, em.timestamp ≤ p.2.timestamp := by
  match c with
  | [] => exact absurd rfl hne
  | (k, e) :: rest =>
    rcases minKT_mem rest (k, e.timestamp) with h | ⟨e', hmem, hts⟩
    · refine ⟨(minKT (k, e.timestamp) rest).1, e, rfl, ?_, ?_⟩
      · rw [h]; exact List.mem_cons_self _ _
      · intro p hp
        rcases List.mem_cons.mp hp with hp | hp
        · subst hp; exact le_refl _
        · have := minKT_le_all rest (k, e.timestamp) p hp
          rw [h] at this
          exact this
    · refine ⟨(minKT (k, e.timestamp) rest).1, e', rfl, List.mem_cons_of_mem _ hmem, ?_⟩
      intro p hp
      rcases List.mem_cons.mp hp with hp | hp
      · subst hp
        rw [hts]
        exact minKT_le_start rest (k, e.timestamp)
      · rw [hts]
        exact minKT_le_all rest (k, e.timestamp) p hp

theorem length_eraseKey_of_mem (c : Cache) (m : CacheKey) (em : CacheEntry)
    (h : (m, em) ∈ c) : (eraseKey c m).length + 1 = c.length := by
  induction c with
  | nil => simp at h
  | cons q rest ih =>
    obtain ⟨k, e⟩ := q
    by_cases hk : k = m
    · simp [eraseKey, if_pos hk]
    · have hrest : (m, em) ∈ rest := by
        rcases List.mem_cons.mp h with h1 | h1
        · exact absurd (congrArg Prod.fst h1).symm hk
        · exact h1
      simp only [eraseKey, if_neg hk, List.length_cons]
      rw [← ih hrest]

theorem length_setKey_le (c : Cache) (k : CacheKey) (e : CacheEntry) :
    (setKey c k e).length ≤ c.length + 1 := by
  induction c with
  | nil => simp [setKey]
  | cons q rest ih =>
    obtain ⟨k', e'⟩ := q
    by_cases hk : k' = k
    · simp [setKey, if_pos hk]
    · simp only [setKey, if_neg hk, List.length_cons]
      omega

theorem lookupKey_setKey_self (c : Cache) (k : CacheKey) (e : CacheEntry) :
    lookupKey (setKey c k e) k = some e := by
  induction c with
  | nil => simp [setKey, lookupKey]
  | cons q rest ih =>
    obtain ⟨k', e'⟩ := q
    by_cases hk : k' = k
    · simp [setKey, if_pos hk, lookupKey]
    · simp [setKey, if_neg hk, lookupKey, ih]

/-- C6: `_cache_result` keeps the cache within its 50-entry capacity, and
an insertion at capacity first evicts exactly one entry whose creation
timestamp is minimal over the whole store (reads never refresh
timestamps, so recency of access is irrelevant). -/
theorem claim_cache_bound_eviction (c : Cache) (k : CacheKey)
    (r : List Vehicle) (t : Nat) :
    (c.length ≤ 50 → (cacheResult c k r t).length ≤ 50) ∧
    (c.length = 50 → ∃ m em, minKeyByTs c = some m ∧ (m, em) ∈ c ∧
      (∀ p ∈ c, em.timestamp ≤ p.2.timestamp) ∧
      cacheResult c k r t = setKey (eraseKey c m) k ⟨r, t⟩) := by
  constructor
  · intro hle
    by_cases hcap : cacheCapacity ≤ c.length
    · have hne : c ≠ [] := by
        intro h0
        rw [h0] at hcap
        simp [cacheCapacity] at hcap
      obtain ⟨m, em, hmk, hmem, _⟩ := minKeyByTs_spec c hne
      have herase := length_eraseKey_of_mem c m em hmem
      have hset := length_setKey_le (eraseKey c m) k ⟨r, t⟩
      simp only [cacheResult, if_pos hcap, hmk]
      simp only [cacheCapacity] at hcap
      omega
    · have hset := length_setKey_le c k ⟨r, t⟩
      simp only [cacheResult, if_neg hcap]
      simp only [cacheCapacity] at hcap
      omega
  · intro h50
    have hcap : cacheCapacity ≤ c.length := by
      simp [cacheCapacity, h50]
    have hne : c ≠ [] := by
      intro h0
      rw [h0] at h50
      simp at h50
    obtain ⟨m, em, hmk, hmem, hts⟩ := minKeyByTs_spec c hne
    refine ⟨m, em, hmk, hmem, hts, ?_⟩
    simp only [cacheResult, if_pos hcap, hmk]

theorem lookupKey_cacheResult (c : Cache) (k : CacheKey) (r : List Vehicle)
    (t : Nat) : lookupKey (cacheResult c k r t) k = some ⟨r, t⟩ := by
  unfold cacheResult
  exact lookupKey_setKey_self _ _ _

/-- A cache hit: fresh entry present under the fingerprint.  Only the hit
counter changes; the cached list is returned and the pipeline is skipped. -/
theorem intelligentSearch_hit (st : MgrState) (q : List Char) (k t y : Nat)
    (hinv : ¬st.inventory = []) (e : CacheEntry)
    (hl : lookupKey st.searchCache (generateCacheKey q k st.inventory.length) =
      some e)
    (htl : t - e.timestamp ≤ cacheTTL) :
    intelligentSearch st q k t y = (e.result, { st with hits := st.hits + 1 }) := by
  have hg : getCachedResult st.searchCache
      (generateCacheKey q k st.inventory.length) t =
      (some e.result, st.searchCache) := by
    simp only [getCachedResult, hl]
    rw [if_pos htl]
  simp only [intelligentSearch]
  rw [if_neg hinv, hg]

/-- A cache miss: the pipeline runs, the miss counter is bumped and the
result is stored under the fingerprint. -/
theorem intelligentSearch_miss (st : MgrState) (q : List Char) (k t y : Nat)
    (hinv : ¬st.inventory = [])
    (hmiss : (getCachedResult st.searchCache
      (generateCacheKey q k st.inventory.length) t).1 = none) :
    intelligentSearch st q k t y =
      (searchCompute st.inventory q k y, missState st q k t y) := by
  simp only [intelligentSearch, missState]
  rw [if_neg hinv]
  rcases hg : getCachedResult st.searchCache
      (generateCacheKey q k st.inventory.length) t with ⟨o, c1⟩
  rw [hg] at hmiss
  cases o with
  | none => rfl
  | some res => simp at hmiss

/-- C4, amended: with a nonempty catalog, two searches of the same query
and limit in immediate succession (same clock reading, no mutation in
between) return identical ordered lists, and the second is answered from
the cache: the hit counter is incremented and nothing else changes. -/
theorem claim_search_idempotent_amended (st : MgrState) (q : List Char)
    (k t y : Nat) (hinv : ¬st.inventory = []) :
    ∃ r st1, intelligentSearch st q k t y = (r, st1) ∧
      intelligentSearch st1 q k t y = (r, { st1 with hits := st1.hits + 1 }) := by
  cases hl : lookupKey st.searchCache (generateCacheKey q k st.inventory.length) with
  | some e =>
    by_cases htl : t - e.timestamp ≤ cacheTTL
    · exact ⟨e.result, { st with hits := st.hits + 1 },
        intelligentSearch_hit st q k t y hinv e hl htl,
        intelligentSearch_hit { st with hits := st.hits + 1 } q k t y hinv e hl htl⟩
    · have hmiss : (getCachedResult st.searchCache
          (generateCacheKey q k st.inventory.length) t).1 = none := by
        simp only [getCachedResult, hl]
        rw [if_neg htl]
      refine ⟨searchCompute st.inventory q k y, missState st q k t y,
        intelligentSearch_miss st q k t y hinv hmiss, ?_⟩
      exact intelligentSearch_hit (missState st q k t y) q k t y hinv
        ⟨searchCompute st.inventory q k y, t⟩ (lookupKey_cacheResult _ _ _ _)
        (by simp)
  | none =>
    have hmiss : (getCachedResult st.searchCache
        (generateCacheKey q k st.inventory.length) t).1 = none := by
      simp only [getCachedResult, hl]
    refine ⟨searchCompute st.inventory q k y, missState st q k t y,
      intelligentSearch_miss st q k t y hinv hmiss, ?_⟩
    exact intelligentSearch_hit (missState st q k t y) q k t y hinv
      ⟨searchCompute st.inventory q k y, t⟩ (lookupKey_cacheResult _ _ _ _)
      (by simp)

/-- Witness for C4 (amended) on a one-row catalog. -/
theorem claim_search_idempotent_amended_witness :
    ∃ r st1, intelligentSearch stOne qSuv 8 0 2026 = (r, st1) ∧
      intelligentSearch st1 qSuv 8 0 2026 = (r, { st1 with hits := st1.hits + 1 }) :=
  claim_search_idempotent_amended stOne qSuv 8 0 2026 (by decide)

theorem leadMatch_iff (cue : List Char) : ∀ (w : List Char),
    leadMatch cue w = true ↔ ∃ t, w = cue ++ t := by
  induction cue with
  | nil =>
    intro w
    constructor
    · intro _; exact ⟨w, rfl⟩
    · intro _; rfl
  | cons c cs ih =>
    intro w
    cases w with
    | nil =>
      simp [leadMatch]
    | cons b bs =>
      simp only [leadMatch, Bool.and_eq_true, beq_iff_eq, ih]
      constructor
      · rintro ⟨rfl, t, rfl⟩; exact ⟨t, rfl⟩
      · rintro ⟨t, ht⟩
        injection ht with hb hbs
        exact ⟨hb.symm, t, hbs⟩

theorem leadMatch_append_self (cue z : List Char) :
    leadMatch cue (cue ++ z) = true := by
  induction cue with
  | nil => rfl
  | cons c cs ih => simp [leadMatch, ih]

theorem tryCue_some_decomp (cue w : List Char) (n : Nat)
    (h : tryCue cue w = some n) :
    ∃ d t', d.isDigit = true ∧ w = cue ++ d :: t' := by
  simp only [tryCue] at h
  split at h
  · rename_i hcond
    rw [Bool.and_eq_true] at hcond
    obtain ⟨hlm, hne⟩ := hcond
    obtain ⟨t, rfl⟩ := (leadMatch_iff cue _).mp hlm
    rw [List.drop_left] at hne
    cases t with
    | nil => simp at hne
    | cons d t' =>
      rw [List.takeWhile_cons] at hne
      by_cases hd : Char.isDigit d = true
      · exact ⟨d, t', hd, rfl⟩
      · rw [if_neg hd] at hne
        simp at hne
  · exact absurd h (by simp)

theorem searchCue_of_tryCue (cue s : List Char) (n : Nat)
    (h : tryCue cue s = some n) : searchCue cue s = some n := by
  cases s with
  | nil => simp only [searchCue]; exact h
  | cons c t => simp only [searchCue, h]

theorem searchCue_cons_none (cue : List Char) (c : Char) (t : List Char)
    (h : tryCue cue (c :: t) = none) :
    searchCue cue (c :: t) = searchCue cue t := by
  simp only [searchCue, h]

theorem leadMatch_false_of_clashes (cue : List Char) : ∀ (b : List Char),
    clashes cue b = true → ∀ s, leadMatch cue (b ++ s) = false := by
  induction cue with
  | nil =>
    intro b h
    exfalso
    cases b <;> simp [clashes] at h
  | cons c cs ih =>
    intro b h s
    cases b with
    | nil => simp [clashes] at h
    | cons d ds =>
      simp only [clashes, Bool.or_eq_true] at h
      rcases h with h | h
      · have hcd : c ≠ d := of_decide_eq_true h
        simp [leadMatch, beq_iff_eq, hcd]
      · simp [leadMatch, ih ds h s]

theorem searchCue_skip_block (cue b : List Char) (h : allClash cue b = true)
    (s : List Char) : searchCue cue (b ++ s) = searchCue cue s := by
  induction b with
  | nil => rfl
  | cons x b' ih =>
    simp only [allClash, Bool.and_eq_true] at h
    obtain ⟨hc, ha⟩ := h
    have hlm := leadMatch_false_of_clashes cue (x :: b') hc s
    rw [List.cons_append] at hlm
    have htc : tryCue cue (x :: (b' ++ s)) = none := by simp [tryCue, hlm]
    rw [List.cons_append, searchCue_cons_none cue x (b' ++ s) htc]
    exact ih ha

/-- A cue-plus-digit match cannot start strictly inside a digit-free
region `a :: u` when the first character `x` after the region is not a
digit and does not occur in the cue past its first character. -/
theorem no_digit_run_in_middle : ∀ (u cue : List Char) (a x d : Char)
    (s' t' : List Char), (∀ c ∈ a :: u, c.isDigit = false) →
    x.isDigit = false → (∀ c ∈ cue.drop 1, c ≠ x) → d.isDigit = true →
    (a :: u) ++ x :: s' = cue ++ d :: t' → False := by
  intro u
  induction u with
  | nil =>
    intro cue a x d s' t' hu hx hcx hd heq
    cases cue with
    | nil =>
      injection heq with h1 _
      rw [← h1] at hd
      simp [hu a (List.mem_cons_self a [])] at hd
    | cons c0 cue' =>
      injection heq with h1 h2
      cases cue' with
      | nil =>
        injection h2 with h3 _
        rw [← h3] at hd
        simp [hx] at hd
      | cons c1 cue'' =>
        injection h2 with h3 _
        exact hcx c1 (by simp) h3.symm
  | cons b u' ih =>
    intro cue a x d s' t' hu hx hcx hd heq
    cases cue with
    | nil =>
      injection heq with h1 _
      rw [← h1] at hd
      simp [hu a (List.mem_cons_self a _)] at hd
    | cons c0 cue' =>
      injection heq with h1 h2
      exact ih cue' b x d s' t'
        (fun c hc => hu c (List.mem_cons_of_mem a hc)) hx
        (fun c hc => hcx c (List.mem_of_mem_drop hc)) hd h2

theorem tryCue_mid_none (cue : List Char) (a : Char) (u : List Char)
    (x : Char) (s' : List Char) (hu : ∀ c ∈ a :: u, c.isDigit = false)
    (hx : x.isDigit = false) (hcx : ∀ c ∈ cue.drop 1, c ≠ x) :
    tryCue cue ((a :: u) ++ x :: s') = none := by
  cases h : tryCue cue ((a :: u) ++ x :: s') with
  | none => rfl
  | some n =>
    obtain ⟨d, t', hd, heq⟩ := tryCue_some_decomp cue _ n h
    exact (no_digit_run_in_middle u cue a x d s' t' hu hx hcx hd heq).elim

/-- Scanning for `cue` followed by digits skips over a digit-free region
whose following character is neither a digit nor an inner cue character. -/
theorem searchCue_skip_nodigit (cue : List Char) (x : Char)
    (hx : x.isDigit = false) (hcx : ∀ c ∈ cue.drop 1, c ≠ x) :
    ∀ (a : List Char), (∀ c ∈ a, c.isDigit = false) → ∀ s',
    searchCue cue (a ++ x :: s') = searchCue cue (x :: s') := by
  intro a
  induction a with
  | nil => intro _ s'; rfl
  | cons b a' ih =>
    intro ha s'
    have htc : tryCue cue ((b :: a') ++ x :: s') = none :=
      tryCue_mid_none cue b a' x s' ha hx hcx
    rw [List.cons_append] at htc
    rw [List.cons_append, searchCue_cons_none cue b (a' ++ x :: s') htc]
    exact ih (fun c hc => ha c (List.mem_cons_of_mem b hc)) s'

/-- A cue-plus-digit pattern never matches inside an entirely digit-free
string. -/
theorem searchCue_none_of_digitFree (cue : List Char) : ∀ (l : List Char),
    (∀ c ∈ l, c.isDigit = false) → searchCue cue l = none := by
  intro l
  induction l with
  | nil => intro _; simp [searchCue, tryCue]
  | cons c t ih =>
    intro hl
    have htc : tryCue cue (c :: t) = none := by
      cases h : tryCue cue (c :: t) with
      | none => rfl
      | some n =>
        obtain ⟨d, t', hd, heq⟩ := tryCue_some_decomp cue _ n h
        have hdmem : d ∈ c :: t := by
          rw [heq]
          exact List.mem_append_right _ (List.mem_cons_self _ _)
        simp [hl d hdmem] at hd
    rw [searchCue_cons_none cue c t htc]
    exact ih (fun u hu => hl u (List.mem_cons_of_mem c hu))

theorem takeWhile_digits_append (ds : List Char)
    (hds : ∀ c ∈ ds, c.isDigit = true) (r : List Char)
    (hr : headNonDigit r) :
    (ds ++ r).takeWhile Char.isDigit = ds := by
  induction ds with
  | nil =>
    cases r with
    | nil => rfl
    | cons y r' =>
      simp only [List.nil_append, List.takeWhile_cons]
      rw [if_neg]
      simp [headNonDigit] at hr
      simp [hr]
  | cons d ds' ih =>
    simp only [List.cons_append, List.takeWhile_cons]
    rw [if_pos (hds d (List.mem_cons_self d ds'))]
    rw [ih (fun c hc => hds c (List.mem_cons_of_mem d hc))]

/-- The anchored pattern `hasta (\d+)` matches the phrase "hasta 40000"
with captured group 40000 whenever no further digit follows the phrase. -/
theorem tryCue_hasta (r : List Char) (hr : headNonDigit r) :
    tryCue cueHasta (p1C3 ++ r) = some 40000 := by
  have hsplit : p1C3 ++ r = cueHasta ++ (['4', '0', '0', '0', '0'] ++ r) := rfl
  rw [hsplit]
  simp only [tryCue]
  rw [leadMatch_append_self, List.drop_left,
    takeWhile_digits_append ['4', '0', '0', '0', '0'] (by decide) r hr]
  decide

theorem searchCue_hasta_hit (r : List Char) (hr : headNonDigit r) :
    searchCue cueHasta (p1C3 ++ r) = some 40000 := by
  cases hp : p1C3 ++ r with
  | nil => exact absurd hp (by simp [p1C3])
  | cons c t =>
    rw [← hp]
    exact searchCue_of_tryCue cueHasta (p1C3 ++ r) 40000 (tryCue_hasta r hr)

theorem headNonDigit_append (B : List Char)
    (hB : ∀ c ∈ B, c.isDigit = false) (x : Char) (hx : x.isDigit = false)
    (z : List Char) : headNonDigit (B ++ x :: z) := by
  cases B with
  | nil => exact hx
  | cons b B' => exact hB b (List.mem_cons_self b B')

theorem headNonDigit_of_digitFree (C : List Char)
    (hC : ∀ c ∈ C, c.isDigit = false) : headNonDigit C := by
  cases C with
  | nil => trivial
  | cons c C' => exact hC c (List.mem_cons_self c C')

/-- A budget cue that clashes with every suffix of both embedded phrase
blocks finds no match anywhere in `A ++ block1 ++ B ++ block2 ++ C` when
the free regions are digit-free. -/
theorem searchCue_none_of_blocks (cue : List Char) (x1 : Char)
    (b1 : List Char) (x2 : Char) (b2 : List Char) (A B C : List Char)
    (hA : ∀ c ∈ A, c.isDigit = false) (hB : ∀ c ∈ B, c.isDigit = false)
    (hC : ∀ c ∈ C, c.isDigit = false)
    (hx1 : x1.isDigit = false) (hx2 : x2.isDigit = false)
    (hcx1 : ∀ c ∈ cue.drop 1, c ≠ x1) (hcx2 : ∀ c ∈ cue.drop 1, c ≠ x2)
    (hc1 : allClash cue (x1 :: b1) = true)
    (hc2 : allClash cue (x2 :: b2) = true) :
    searchCue cue (A ++ ((x1 :: b1) ++ (B ++ ((x2 :: b2) ++ C)))) = none := by
  have s1 : searchCue cue (A ++ ((x1 :: b1) ++ (B ++ ((x2 :: b2) ++ C)))) =
      searchCue cue (x1 :: (b1 ++ (B ++ ((x2 :: b2) ++ C)))) :=
    searchCue_skip_nodigit cue x1 hx1 hcx1 A hA (b1 ++ (B ++ ((x2 :: b2) ++ C)))
  have s2 : searchCue cue (x1 :: (b1 ++ (B ++ ((x2 :: b2) ++ C)))) =
      searchCue cue (B ++ ((x2 :: b2) ++ C)) :=
    searchCue_skip_block cue (x1 :: b1) hc1 (B ++ ((x2 :: b2) ++ C))
  have s3 : searchCue cue (B ++ ((x2 :: b2) ++ C)) =
      searchCue cue (x2 :: (b2 ++ C)) :=
    searchCue_skip_nodigit cue x2 hx2 hcx2 B hB (b2 ++ C)
  have s4 : searchCue cue (x2 :: (b2 ++ C)) = searchCue cue C :=
    searchCue_skip_block cue (x2 :: b2) hc2 C
  exact s1.trans (s2.trans (s3.trans
    (s4.trans (searchCue_none_of_digitFree cue C hC))))

theorem searchCue_hasta_order1 (A B C : List Char)
    (hA : ∀ c ∈ A, c.isDigit = false) (hB : ∀ c ∈ B, c.isDigit = false) :
    searchCue cueHasta (A ++ (p1C3 ++ (B ++ (p2C3 ++ C)))) = some 40000 := by
  have s1 : searchCue cueHasta (A ++ (p1C3 ++ (B ++ (p2C3 ++ C)))) =
      searchCue cueHasta (p1C3 ++ (B ++ (p2C3 ++ C))) :=
    searchCue_skip_nodigit cueHasta 'h' (by decide) (by decide) A hA
      (p1tailC3 ++ (B ++ (p2C3 ++ C)))
  rw [s1]
  exact searchCue_hasta_hit (B ++ (p2C3 ++ C))
    (headNonDigit_append B hB 'm' (by decide) (p2tailC3 ++ C))

theorem searchCue_hasta_order2 (A B C : List Char)
    (hA : ∀ c ∈ A, c.isDigit = false) (hB : ∀ c ∈ B, c.isDigit = false)
    (hC : ∀ c ∈ C, c.isDigit = false) :
    searchCue cueHasta (A ++ (p2C3 ++ (B ++ (p1C3 ++ C)))) = some 40000 := by
  have s1 : searchCue cueHasta (A ++ (p2C3 ++ (B ++ (p1C3 ++ C)))) =
      searchCue cueHasta (p2C3 ++ (B ++ (p1C3 ++ C))) :=
    searchCue_skip_nodigit cueHasta 'm' (by decide) (by decide) A hA
      (p2tailC3 ++ (B ++ (p1C3 ++ C)))
  have s2 : searchCue cueHasta (p2C3 ++ (B ++ (p1C3 ++ C))) =
      searchCue cueHasta (B ++ (p1C3 ++ C)) :=
    searchCue_skip_block cueHasta p2C3 (by decide) (B ++ (p1C3 ++ C))
  have s3 : searchCue cueHasta (B ++ (p1C3 ++ C)) =
      searchCue cueHasta (p1C3 ++ C) :=
    searchCue_skip_nodigit cueHasta 'h' (by decide) (by decide) B hB
      (p1tailC3 ++ C)
  rw [s1, s2, s3]
  exact searchCue_hasta_hit C (headNonDigit_of_digitFree C hC)

/-- Phrase order "hasta 40000" before "máximo 50000": the budget pattern
priority yields 40000. -/
theorem parseBudget_order1 (A B C : List Char)
    (hA : ∀ c ∈ A, c.isDigit = false) (hB : ∀ c ∈ B, c.isDigit = false)
    (hC : ∀ c ∈ C, c.isDigit = false) :
    parseBudget (A ++ (p1C3 ++ (B ++ (p2C3 ++ C)))) = some 40000 := by
  have hb : searchCue cueBajo (A ++ (p1C3 ++ (B ++ (p2C3 ++ C)))) = none :=
    searchCue_none_of_blocks cueBajo 'h' p1tailC3 'm' p2tailC3 A B C hA hB hC
      (by decide) (by decide) (by decide) (by decide) (by decide) (by decide)
  have hm : searchCue cueMenos (A ++ (p1C3 ++ (B ++ (p2C3 ++ C)))) = none :=
    searchCue_none_of_blocks cueMenos 'h' p1tailC3 'm' p2tailC3 A B C hA hB hC
      (by decide) (by decide) (by decide) (by decide) (by decide) (by decide)
  have hh := searchCue_hasta_order1 A B C hA hB
  simp only [parseBudget, budgetCues, List.map_cons, List.map_nil, firstSome,
    hb, hm, hh]

/-- Phrase order "máximo 50000" before "hasta 40000": the budget pattern
priority still yields 40000, not the textually earlier 50000. -/
theorem parseBudget_order2 (A B C : List Char)
    (hA : ∀ c ∈ A, c.isDigit = false) (hB : ∀ c ∈ B, c.isDigit = false)
    (hC : ∀ c ∈ C, c.isDigit = false) :
    parseBudget (A ++ (p2C3 ++ (B ++ (p1C3 ++ C)))) = some 40000 := by
  have hb : searchCue cueBajo (A ++ (p2C3 ++ (B ++ (p1C3 ++ C)))) = none :=
    searchCue_none_of_blocks cueBajo 'm' p2tailC3 'h' p1tailC3 A B C hA hB hC
      (by decide) (by decide) (by decide) (by decide) (by decide) (by decide)
  have hm : searchCue cueMenos (A ++ (p2C3 ++ (B ++ (p1C3 ++ C)))) = none :=
    searchCue_none_of_blocks cueMenos 'm' p2tailC3 'h' p1tailC3 A B C hA hB hC
      (by decide) (by decide) (by decide) (by decide) (by decide) (by decide)
  have hh := searchCue_hasta_order2 A B C hA hB hC
  simp only [parseBudget, budgetCues, List.map_cons, List.map_nil, firstSome,
    hb, hm, hh]

theorem lowerChar_nondigit (c : Char) (h : c.isDigit = false) :
    (lowerChar c).isDigit = false := by
  unfold lowerChar
  split <;> first | decide | exact h

theorem map_lowerChar_digitFree (l : List Char)
    (h : ∀ c ∈ l, c.isDigit = false) :
    ∀ c ∈ List.map lowerChar l, c.isDigit = false := by
  intro c hc
  obtain ⟨c0, hc0, rfl⟩ := List.mem_map.mp hc
  exact lowerChar_nondigit c0 (h c0 hc0)

/-- C3, counterexample to the unrestricted claim: the query
"bajo 7 hasta 40000 máximo 50000" contains both phrases, yet the
extracted ceiling is 7, because the earlier-priority pattern `bajo N`
matches first. -/
theorem claim_budget_priority_counterexample :
    hasSub p1C3 qCE = true ∧ hasSub p2C3 qCE = true ∧
    (parseSearchQuery qCE).budget_max = some 7 ∧
    ¬((parseSearchQuery qCE).budget_max = some 40000) := by
  decide

/-- C3, amended: for every query built from the phrases "hasta 40000" and
"máximo 50000", in either textual order, separated and surrounded by
digit-free text, budget extraction follows the declared pattern priority
(`hasta` before `máximo`) and returns 40000. -/
theorem claim_budget_priority_amended (la lb lc : List Char)
    (h1 : ∀ c ∈ la, c.isDigit = false) (h2 : ∀ c ∈ lb, c.isDigit = false)
    (h3 : ∀ c ∈ lc, c.isDigit = false) :
    (parseSearchQuery (la ++ (p1C3 ++ (lb ++ (p2C3 ++ lc))))).budget_max =
      some 40000 ∧
    (parseSearchQuery (la ++ (p2C3 ++ (lb ++ (p1C3 ++ lc))))).budget_max =
      some 40000 := by
  have hp1 : List.map lowerChar p1C3 = p1C3 := by decide
  have hp2 : List.map lowerChar p2C3 = p2C3 := by decide
  constructor
  · show parseBudget (lowerL (la ++ (p1C3 ++ (lb ++ (p2C3 ++ lc))))) =
      some 40000
    simp only [lowerL, List.map_append, hp1, hp2]
    exact parseBudget_order1 _ _ _ (map_lowerChar_digitFree la h1)
      (map_lowerChar_digitFree lb h2) (map_lowerChar_digitFree lc h3)
  · show parseBudget (lowerL (la ++ (p2C3 ++ (lb ++ (p1C3 ++ lc))))) =
      some 40000
    simp only [lowerL, List.map_append, hp1, hp2]
    exact parseBudget_order2 _ _ _ (map_lowerChar_digitFree la h1)
      (map_lowerChar_digitFree lb h2) (map_lowerChar_digitFree lc h3)

/-- Witness for C3 (amended) at concrete digit-free context strings. -/
theorem claim_budget_priority_amended_witness :
    (parseSearchQuery (wA ++ (p1C3 ++ (wB ++ (p2C3 ++ wC))))).budget_max =
      some 40000 ∧
    (parseSearchQuery (wA ++ (p2C3 ++ (wB ++ (p1C3 ++ wC))))).budget_max =
      some 40000 :=
  claim_budget_priority_amended wA wB wC (by decide) (by decide) (by decide)

/-- C4, counterexample to the unrestricted claim: on an empty catalog the
early-exit returns `[]` before the cache is consulted, so the second of
two immediately successive identical searches is *not* answered from the
cache and the hit counter is not incremented. -/
theorem claim_search_idempotent_counterexample :
    (intelligentSearch (intelligentSearch stEmpty qSuv 8 0 2026).2 qSuv 8 0 2026).1 =
      (intelligentSearch stEmpty qSuv 8 0 2026).1 ∧
    (intelligentSearch (intelligentSearch stEmpty qSuv 8 0 2026).2 qSuv 8 0 2026).2.hits =
      (intelligentSearch stEmpty qSuv 8 0 2026).2.hits ∧
    ¬((intelligentSearch (intelligentSearch stEmpty qSuv 8 0 2026).2 qSuv 8 0 2026).2.hits =
      (intelligentSearch stEmpty qSuv 8 0 2026).2.hits + 1) := by
  decide

/-- Witness for C6 on a full 50-entry cache. -/
theorem claim_cache_bound_eviction_witness :
    (cacheResult cache50 keyW [] 100).length ≤ 50 ∧
    (∃ m em, minKeyByTs cache50 = some m ∧ (m, em) ∈ cache50 ∧
      (∀ p ∈ cache50, em.timestamp ≤ p.2.timestamp) ∧
      cacheResult cache50 keyW [] 100 = setKey (eraseKey cache50 m) keyW ⟨[], 100⟩) :=
  ⟨(claim_cache_bound_eviction cache50 keyW [] 100).1 (by decide),
   (claim_cache_bound_eviction cache50 keyW [] 100).2 (by decide)⟩

/-- Witness for C10: failed write-back on the one-row catalog. -/
theorem claim_reserve_write_failure_nonatomic_witness :
    ∃ inv', reserveVehicle stOne vin1 false =
        (false, { stOne with inventory := inv' }) ∧
      findVin vin1 inv' = some { vSample with status := reservedS } ∧
      inv' ≠ stOne.inventory ∧
      ({ stOne with inventory := inv' } : MgrState).disk = stOne.disk :=
  claim_reserve_write_failure_nonatomic stOne vin1 vSample (by decide) (by decide)

end CarBot
